import Mathlib

/-!
Verification development for the secretary ODT template renderer
(src/secretary.py). The Python source is shallowly embedded below:

* `pack_document` models `Render.pack_document` (lines 158-179) at the
  archive-mapping level: one entry per file name, bytes modeled as strings.
* `render_template` models the module entry point (lines 493-499).
* `JinjaValue` and friends model the `UndefinedSilently` value class
  (lines 74-85) at the level of the operations the class overrides.
* A heap-style DOM model (`Dom`, `NodeData`) embeds the xml.dom.minidom
  object graph that `Render.prepare_template_tags` (lines 267-364)
  mutates; node ids play the role of Python object identities.
* `unescape_gt_lt` models the nested helper of `Render.render`
  (lines 190-200) together with the concrete semantics of the two
  `re.sub` calls it performs.
* `markdown_call` models the style bookkeeping of `Render.markdown_filter`
  (lines 429, 463-474) together with `get_style_by_name` (lines 367-384)
  and `insert_style_in_content` (lines 386-411), at the level of the
  sequence of named styles a call requires.
-/

/-! ### Generic list and string helpers (used by the embeddings) -/

/-- First element of a list of naturals, with a default (used for
`childNodes[0]`, which the source only reads after `hasChildNodes()`). -/
def headNat (l : List Nat) (d : Nat) : Nat :=
  match l with
  | [] => d
  | a :: _ => a

/-- Does the first list occur at the very beginning of the second one? -/
def firstMatches : List Char → List Char → Bool
  | [], _ => true
  | _ :: _, [] => false
  | a :: as, b :: bs => (a = b) && firstMatches as bs

/-- Does `needle` occur as a contiguous run somewhere in the second list? -/
def hasSub (needle : List Char) : List Char → Bool
  | [] => firstMatches needle []
  | c :: rest => firstMatches needle (c :: rest) || hasSub needle rest

/-- `s.startswith(p)` of Python, on Lean strings. -/
def strStartsWith (s p : String) : Bool :=
  firstMatches p.toList s.toList

/-- Python whitespace characters stripped by `str.strip()`. -/
def isPyWhitespace (c : Char) : Bool :=
  c = ' ' || c = '\t' || c = '\n' || c = '\r' || c = '\x0b' || c = '\x0c'

/-- `str.strip()` of Python on a char list. -/
def pyStripL (cs : List Char) : List Char :=
  ((cs.dropWhile isPyWhitespace).reverse.dropWhile isPyWhitespace).reverse

/-- `str.strip()` of Python on a Lean string. -/
def pyStripS (s : String) : String :=
  String.mk (pyStripL s.toList)

/-- `s.replace('\n', '')` of Python. -/
def removeNewlines (s : String) : String :=
  String.mk (s.toList.filter (fun c => c ≠ '\n'))

/-- Assoc-list lookup, modeling Python `dict.get` (first matching key). -/
def lookupStr : List (String × String) → String → Option String
  | [], _ => none
  | (k, v) :: rest, key => if k = key then some v else lookupStr rest key

/-- Membership test on a list of strings, modeling Python `in`. -/
def elemStr : List String → String → Bool
  | [], _ => false
  | x :: xs, s => (x = s) || elemStr xs s

/-- Membership test on a list of naturals. -/
def containsNat : List Nat → Nat → Bool
  | [], _ => false
  | x :: xs, n => (x = n) || containsNat xs n

/-- Occurrence count of a string in a list of strings. -/
def countStr : List String → String → Nat
  | [], _ => 0
  | x :: xs, s => (if x = s then 1 else 0) + countStr xs s

/-- Remove the first occurrence of `n`, modeling minidom `removeChild`
taking the child out of the `childNodes` list. -/
def eraseFirstNat : List Nat → Nat → List Nat
  | [], _ => []
  | x :: xs, n => if x = n then xs else x :: eraseFirstNat xs n

/-- Insert an element at position `i` of a list. -/
def insertAtIdx (l : List Nat) (i : Nat) (a : Nat) : List Nat :=
  l.take i ++ a :: l.drop i

/-- Position of the first occurrence of `n` (length if absent), modeling
the index arithmetic of minidom `insertBefore`. -/
def idxOfNat : List Nat → Nat → Nat
  | [], _ => 0
  | x :: xs, n => if x = n then 0 else idxOfNat xs n + 1

/-! ### C1 — `Render.pack_document` (src/secretary.py lines 158-179)

The source iterates over `self.file_list` and, for each of the two
special names `content.xml` and `styles.xml`, replaces the stored bytes
by `self.styles.toxml().encode('ascii', 'xmlcharrefreplace')` (line 172).
The serialization of the rendered *content* tree (`self.content`) is
never consulted: the `contentToxml` argument below is available to the
method (as `self.content`) but unused by the source, exactly as in the
Python code. Bytes are modeled as strings, the archive as an assoc list. -/

def pack_document (file_list : List (String × String))
    (contentToxml stylesToxml : String) : List (String × String) :=
  file_list.map (fun e =>
    if e.1 = "content.xml" ∨ e.1 = "styles.xml" then (e.1, stylesToxml) else e)

/-- C1: the claim says the content part receives the serialization of the
rendered content tree and the style part that of the style tree, other
entries passing through unchanged. The code instead writes the *styles*
serialization into **both** special parts (line 172 reads `self.styles`
for every special file name), discarding the rendered content tree that
`render` carefully spliced together at lines 213-221. This theorem
evaluates the embedded `pack_document` at a failing input: the rendered
content bytes CONTENT-RENDERED never appear in the output, and
`content.xml` holds the styles bytes. Untouched entries are carried
through unchanged, as the claim says. -/
theorem pack_document_puts_styles_into_content_part :
    pack_document [("content.xml", "C0"), ("styles.xml", "S0"), ("meta.xml", "M0")]
      "CONTENT-RENDERED" "STYLES-RENDERED"
    = [("content.xml", "STYLES-RENDERED"), ("styles.xml", "STYLES-RENDERED"),
       ("meta.xml", "M0")] := by
  decide

/-! ### C2 — `render_template` (src/secretary.py lines 493-499)

```
def render_template(template, **kwargs):
    engine = Render(file)
    return engine.render(**kwargs)
```

The body passes the name `file` to `Render`. In the Python 2 source
`file` is the built-in file *type* object, not the `template` parameter,
which is therefore ignored entirely. -/

/-- A Python value that may be handed to `Render.__init__` as the
template: a filesystem path, an open readable handle, or the Python 2
built-in `file` type object that the buggy entry point actually passes. -/
inductive PyTemplateArg where
  | path (s : String)
  | handle (h : Nat)
  | builtinFileType
deriving DecidableEq

/-- The state `Render.__init__` stores: `self.template = template`
(line 126). -/
structure RenderState where
  template : PyTemplateArg
deriving DecidableEq

/-- `Render(template)`, keeping only the field the claim is about. -/
def RenderInit (template : PyTemplateArg) : RenderState :=
  { template := template }

/-- The module-level entry point: the source constructs `Render(file)`
with the built-in `file` type, not the `template` argument. -/
def render_template (template : PyTemplateArg) : RenderState :=
  RenderInit PyTemplateArg.builtinFileType

/-- C2: the claim says `render_template(template, **kwargs)` renders the
*given* template. The code constructs `Render(file)` where `file` is the
Python 2 built-in file type (the `template` parameter is never used), so
the engine never holds the caller's template: at the concrete input
`render_template("template.odt")` the engine state differs from the state
that rendering the given template would require, and the given path is
not the stored template. -/
theorem render_template_ignores_its_argument :
    render_template (PyTemplateArg.path "template.odt")
      ≠ RenderInit (PyTemplateArg.path "template.odt")
    ∧ (render_template (PyTemplateArg.path "template.odt")).template
      = PyTemplateArg.builtinFileType := by
  constructor
  · intro h
    simpa [render_template, RenderInit] using congrArg RenderState.template h
  · rfl

/-! ### C8 — `UndefinedSilently` (src/secretary.py lines 74-85)

```
class UndefinedSilently(Undefined):
    def silently_undefined(*args, **kwargs): return ''
    return_new = lambda *args, **kwargs: UndefinedSilently()
    __unicode__ = silently_undefined
    __str__ = silently_undefined
    __call__ = return_new
    __getattr__ = return_new
```

Attribute access resolved through `__getattr__` and calls through
`__call__` both return a fresh `UndefinedSilently`; string conversion
returns the empty string. The model distinguishes the sentinel from an
ordinary value so "never raises" is informative: operations return
`Except`, and only the sentinel absorbs every operation. -/

/-- A template-engine value: the silent-undefined sentinel, or an
ordinary string value (on which unknown attribute access / calling would
raise in Python). -/
inductive JinjaValue where
  | undefSilently
  | strVal (s : String)
deriving DecidableEq

/-- Attribute access. On the sentinel, `__getattr__ = return_new`
returns a fresh `UndefinedSilently()`; on an ordinary string value an
unknown attribute raises `AttributeError`. -/
def jinjaGetattr : JinjaValue → String → Except String JinjaValue
  | JinjaValue.undefSilently, _ => Except.ok JinjaValue.undefSilently
  | JinjaValue.strVal _, n => Except.error ("AttributeError: " ++ n)

/-- Calling. On the sentinel, `__call__ = return_new` returns a fresh
`UndefinedSilently()`; an ordinary string is not callable. -/
def jinjaCall : JinjaValue → Except String JinjaValue
  | JinjaValue.undefSilently => Except.ok JinjaValue.undefSilently
  | JinjaValue.strVal _ => Except.error "TypeError: not callable"

/-- String conversion: `__str__ = silently_undefined` returns the empty
string on the sentinel. -/
def jinjaStr : JinjaValue → String
  | JinjaValue.undefSilently => ""
  | JinjaValue.strVal s => s

/-- One step of a chained expression: an attribute access or a call. -/
inductive ChainOp where
  | attr (name : String)
  | call
deriving DecidableEq

/-- Evaluate a finite chain of attribute accesses and calls, propagating
the first raised exception, as Python evaluation of `x.a.b()(...)` does. -/
def evalChain : JinjaValue → List ChainOp → Except String JinjaValue
  | v, [] => Except.ok v
  | v, op :: rest =>
    match (match op with
           | ChainOp.attr n => jinjaGetattr v n
           | ChainOp.call => jinjaCall v) with
    | Except.ok v' => evalChain v' rest
    | Except.error e => Except.error e

/-- C8: every finite chain of attribute accesses and calls starting from
an `UndefinedSilently` sentinel evaluates without raising, yields the
sentinel again, and its string form is the empty string. -/
theorem undefined_chain_never_raises (ops : List ChainOp) :
    evalChain JinjaValue.undefSilently ops = Except.ok JinjaValue.undefSilently
    ∧ (evalChain JinjaValue.undefSilently ops).map jinjaStr = Except.ok "" := by
  have h : evalChain JinjaValue.undefSilently ops
      = Except.ok JinjaValue.undefSilently := by
    induction ops with
    | nil => rfl
    | cons op rest ih =>
      cases op with
      | attr n => simpa [evalChain, jinjaGetattr] using ih
      | call => simpa [evalChain, jinjaCall] using ih
  exact ⟨h, by rw [h]; rfl⟩

/-! ### C9 — style bookkeeping of `Render.markdown_filter`
(src/secretary.py lines 429, 463-474), with `get_style_by_name`
(lines 367-384) and `insert_style_in_content` (lines 386-411).

The registry is the child list of the single
`<office:automatic-styles>` node of the content tree, modeled by the
list of the `style:name` attributes of its children in document order.
`get_style_by_name` scans that list for a match; `insert_style_in_content`
appends a new style node carrying the name. `markdown_filter` keeps a
fresh per-call `styles_cache` dict and, for every tag occurrence whose
mapping names a style, runs:

```
if not name in styles_cache:
    style_node = self.get_style_by_name(name)
    if style_node is None:
        style_node = self.insert_style_in_content(...)
        styles_cache[name] = style_node
```

(the cache is only updated on the creation path — a registry hit is not
cached, a quirk kept below). A call is abstracted by the sequence of
style names its tag occurrences require, a render by the list of calls. -/

/-- `get_style_by_name` (lines 367-384): scan the automatic-styles
children for one whose `style:name` equals `name`; `none` if absent. -/
def get_style_by_name (reg : List String) (name : String) : Option Unit :=
  if elemStr reg name then some () else none

/-- `insert_style_in_content` (lines 386-411): append a new
`style:style` node carrying `style:name = name` to the registry. -/
def insert_style_in_content (reg : List String) (name : String) : List String :=
  reg ++ [name]

/-- One required style name processed by the body quoted above. State is
(per-call `styles_cache`, registry). -/
def processStyleName (st : List String × List String) (name : String) :
    List String × List String :=
  if elemStr st.1 name then st
  else
    match get_style_by_name st.2 name with
    | some _ => st
    | none => (st.1 ++ [name], insert_style_in_content st.2 name)

/-- One `markdown_filter` invocation: a fresh empty cache (line 429),
then the required style names in document/table order. Returns the
updated registry. -/
def markdown_call (reg : List String) (names : List String) : List String :=
  (names.foldl processStyleName ([], reg)).2

/-- All markdown invocations of one render, threading the registry. -/
def renderStyleCalls (reg : List String) (calls : List (List String)) : List String :=
  calls.foldl markdown_call reg

/-- Counting distributes over append. -/
theorem countStr_append (l₁ l₂ : List String) (n : String) :
    countStr (l₁ ++ l₂) n = countStr l₁ n + countStr l₂ n := by
  induction l₁ with
  | nil => simp [countStr]
  | cons x xs ih =>
    simp only [List.cons_append, countStr, List.append_eq, ih]
    omega

/-- Membership distributes over append. -/
theorem elemStr_append (l₁ l₂ : List String) (n : String) :
    elemStr (l₁ ++ l₂) n = (elemStr l₁ n || elemStr l₂ n) := by
  induction l₁ with
  | nil => simp [elemStr]
  | cons x xs ih =>
    simp only [List.cons_append, elemStr, List.append_eq, ih, Bool.or_assoc]

/-- `elemStr` agrees with a positive count. -/
theorem elemStr_iff_count_pos (l : List String) (n : String) :
    elemStr l n = true ↔ 0 < countStr l n := by
  induction l with
  | nil => simp [elemStr, countStr]
  | cons x xs ih =>
    by_cases hx : x = n
    · subst hx; simp [elemStr, countStr]
    · simp [elemStr, countStr, hx, ih]

/-- Closed-form of one bookkeeping step: skip when cached, skip when the
registry already holds the name, otherwise append to both. -/
theorem processStyleName_eq (st : List String × List String) (m : String) :
    processStyleName st m =
      if elemStr st.1 m then st
      else if elemStr st.2 m then st
      else (st.1 ++ [m], st.2 ++ [m]) := by
  unfold processStyleName get_style_by_name insert_style_in_content
  by_cases h1 : elemStr st.1 m
  · simp [h1]
  · by_cases h2 : elemStr st.2 m
    · simp [h1, h2]
    · simp [h1, h2]

/-- A step never touches the registry count of a name already present. -/
theorem processStyleName_count_of_pos (st : List String × List String)
    (m n : String) (h : 0 < countStr st.2 n) :
    countStr (processStyleName st m).2 n = countStr st.2 n := by
  rw [processStyleName_eq]
  by_cases h1 : elemStr st.1 m
  · simp [h1]
  · by_cases h2 : elemStr st.2 m
    · simp [h1, h2]
    · by_cases hmn : m = n
      · subst hmn
        rw [elemStr_iff_count_pos] at h2
        omega
      · simp [h1, h2, countStr_append, countStr, hmn]

/-- Invariant of the bookkeeping state: cached names are in the registry,
and the tracked name occurs at most once in the registry. -/
def StyleInv (n : String) (st : List String × List String) : Prop :=
  (elemStr st.1 n = true → 0 < countStr st.2 n) ∧ countStr st.2 n ≤ 1

/-- The invariant is preserved by each bookkeeping step. -/
theorem processStyleName_inv (st : List String × List String) (m n : String)
    (h : StyleInv n st) : StyleInv n (processStyleName st m) := by
  obtain ⟨hc, h1⟩ := h
  rw [processStyleName_eq]
  by_cases hm1 : elemStr st.1 m
  · simpa [hm1] using ⟨hc, h1⟩
  · by_cases hm2 : elemStr st.2 m
    · simpa [hm1, hm2] using ⟨hc, h1⟩
    · simp only [hm1, hm2, if_false, Bool.false_eq_true]
      constructor
      · intro hmem
        simp only [elemStr_append, Bool.or_eq_true] at hmem
        rcases hmem with hmem | hmem
        · have := hc hmem
          simp [countStr_append]
          omega
        · have hmn : m = n := by
            by_contra hne
            simp [elemStr, hne] at hmem
          subst hmn
          simp [countStr_append, countStr]
      · by_cases hmn : m = n
        · subst hmn
          have h0 : countStr st.2 m = 0 := by
            by_contra hne
            exact hm2 ((elemStr_iff_count_pos st.2 m).2 (by omega))
          simp [countStr_append, countStr, h0]
        · simp [countStr_append, countStr, hmn]
          omega

/-- Processing the tracked name itself leaves it with registry count
exactly one (creating it only when it is in neither cache nor registry). -/
theorem processStyleName_self (st : List String × List String) (n : String)
    (h : StyleInv n st) : countStr (processStyleName st n).2 n = 1 := by
  obtain ⟨hc, h1⟩ := h
  rw [processStyleName_eq]
  by_cases hm1 : elemStr st.1 n
  · have := hc hm1
    rw [if_pos hm1]
    omega
  · by_cases hm2 : elemStr st.2 n
    · rw [if_neg hm1, if_pos hm2]
      rw [elemStr_iff_count_pos] at hm2
      omega
    · have h0 : countStr st.2 n = 0 := by
        by_contra hne
        exact hm2 ((elemStr_iff_count_pos st.2 n).2 (by omega))
      rw [if_neg hm1, if_neg hm2]
      simp [countStr_append, countStr, h0]

/-- Folding the names of one call: the invariant is preserved, a count of
exactly one is preserved, and once the tracked name is required its count
is exactly one afterwards. -/
theorem foldStyleNames_spec (n : String) (names : List String) :
    ∀ st : List String × List String, StyleInv n st →
      StyleInv n (names.foldl processStyleName st)
      ∧ (countStr st.2 n = 1 →
          countStr (names.foldl processStyleName st).2 n = 1)
      ∧ (n ∈ names → countStr (names.foldl processStyleName st).2 n = 1) := by
  induction names with
  | nil =>
    intro st h
    exact ⟨h, fun h1 => h1, fun hmem => absurd hmem (List.not_mem_nil n)⟩
  | cons m rest ih =>
    intro st h
    have hinv1 : StyleInv n (processStyleName st m) := processStyleName_inv st m n h
    obtain ⟨ha, hb, hcm⟩ := ih (processStyleName st m) hinv1
    refine ⟨by simpa [List.foldl_cons] using ha, ?_, ?_⟩
    · intro h1
      have : countStr (processStyleName st m).2 n = 1 := by
        rw [processStyleName_count_of_pos st m n (by omega)]
        exact h1
      simpa [List.foldl_cons] using hb this
    · intro hmem
      rcases List.mem_cons.1 hmem with hmn | hmem
      · subst hmn
        have h1 : countStr (processStyleName st n).2 n = 1 :=
          processStyleName_self st n h
        simpa [List.foldl_cons] using hb h1
      · simpa [List.foldl_cons] using hcm hmem

/-- One markdown call: registry count of a required name becomes exactly
one, a count of exactly one persists, and at-most-once persists. -/
theorem markdown_call_spec (reg : List String) (names : List String)
    (n : String) (h1 : countStr reg n ≤ 1) :
    countStr (markdown_call reg names) n ≤ 1
    ∧ (countStr reg n = 1 → countStr (markdown_call reg names) n = 1)
    ∧ (n ∈ names → countStr (markdown_call reg names) n = 1) := by
  have hinv : StyleInv n (([] : List String), reg) :=
    ⟨by intro h; simp [elemStr] at h, h1⟩
  obtain ⟨ha, hb, hcm⟩ := foldStyleNames_spec n names ([], reg) hinv
  exact ⟨ha.2, hb, hcm⟩

/-- C9: across all markdown-filter invocations of one render, every style
name required by some invocation ends up present exactly once in the
automatic-styles registry, provided it started there at most once (in
particular when it started absent): a style node is created only when the
name is in neither the per-call cache nor the registry, so repeated need
for the same style, within one call or across calls, never inserts a
duplicate. -/
theorem markdown_styles_present_exactly_once (calls : List (List String))
    (reg : List String) (n : String)
    (hreq : n ∈ calls.flatten) (hinit : countStr reg n ≤ 1) :
    countStr (renderStyleCalls reg calls) n = 1 := by
  induction calls generalizing reg with
  | nil => simp at hreq
  | cons c cs ih =>
    obtain ⟨hle, hone, hself⟩ := markdown_call_spec reg c n hinit
    by_cases hmem : n ∈ c
    · have h1 : countStr (markdown_call reg c) n = 1 := hself hmem
      -- the count of exactly one persists through the remaining calls
      have persist : ∀ (cs' : List (List String)) (r : List String),
          countStr r n = 1 → countStr (renderStyleCalls r cs') n = 1 := by
        intro cs'
        induction cs' with
        | nil => intro r hr; simpa [renderStyleCalls] using hr
        | cons d ds ihd =>
          intro r hr
          obtain ⟨_, hone', _⟩ := markdown_call_spec r d n (by omega)
          simpa [renderStyleCalls, List.foldl_cons] using ihd _ (hone' hr)
      simpa [renderStyleCalls, List.foldl_cons] using persist cs _ h1
    · have hreq' : n ∈ cs.flatten := by
        rcases List.mem_flatten.1 hreq with ⟨l, hl, hnl⟩
        rcases List.mem_cons.1 hl with rfl | hl'
        · exact absurd hnl hmem
        · exact List.mem_flatten.2 ⟨l, hl', hnl⟩
      simpa [renderStyleCalls, List.foldl_cons] using ih _ hreq' hle

/-- Witness for C9: a render whose two markdown calls both require the
style name md, starting from an empty registry, ends with exactly one
registered copy. -/
theorem markdown_styles_present_exactly_once_witness :
    countStr (renderStyleCalls [] [["md"], ["md"]]) "md" = 1 :=
  markdown_styles_present_exactly_once [["md"], ["md"]] [] "md"
    (by decide) (by decide)

/-! ### C6 — `unescape_gt_lt` (src/secretary.py lines 190-200)

```
unescape_entities = {
    r'(\x7b[\x7b|%].*)(&gt;)(.*[%|\x7d]\x7d)': r'\1>\3',
    r'(\x7b[\x7b|%].*)(&lt;)(.*[%|\x7d]\x7d)': r'\1<\3',
}
for pattern, repl in unescape_entities.iteritems():
    text = re.sub(pattern, repl, text, flags=re.IGNORECASE or re.DOTALL)
```

Notes on the exact source semantics embedded here:
* `re.IGNORECASE or re.DOTALL` is a Python boolean expression evaluating
  to `re.IGNORECASE` (truthy left operand), so DOTALL is **off** and `.`
  does not match a newline; entity letters match case-insensitively.
* The first group is an opening brace followed by the character class
  holding an opening brace, a pipe, or a percent; the third group ends
  with the class percent / pipe / closing brace, then a closing brace.
* `re.sub` takes the leftmost possible match start; both `.*` are
  greedy, so the entity replaced is the **last** one that still has a
  valid closing pair after it, and scanning resumes after the match.
* The two patterns are applied in the dict literal order (CPython 2 dict
  order for this dict is not specified; the two substitutions are
  independent for the inputs analyzed below, which hold no `&lt;`). -/

/-- Character at an index, blank beyond the end (guarded by bounds). -/
def charAtL (cs : List Char) (i : Nat) : Char := cs.getD i ' '

/-- Second character of the opening pair: the class of an opening brace,
a pipe, or a percent sign. -/
def isOpenerSecond (c : Char) : Bool := c = '\x7b' || c = '|' || c = '%'

/-- First character of the closing pair: percent, pipe, or closing brace. -/
def isCloserFirst (c : Char) : Bool := c = '%' || c = '|' || c = '\x7d'

/-- An opening pair starts at `i`. -/
def openerAt (cs : List Char) (i : Nat) : Bool :=
  decide (i + 2 ≤ cs.length) && (charAtL cs i = '\x7b') && isOpenerSecond (charAtL cs (i + 1))

/-- The entity `ent` (given lowercase) occurs at `g`, case-insensitively. -/
def entityAt (ent : List Char) (cs : List Char) (g : Nat) : Bool :=
  decide (g + ent.length ≤ cs.length) &&
  (List.range ent.length).all (fun j => Char.toLower (charAtL cs (g + j)) = ent.getD j ' ')

/-- No newline among positions `a ≤ i < b` (DOTALL is off). -/
def noNlBetween (cs : List Char) (a b : Nat) : Bool :=
  ((cs.take b).drop a).all (fun c => c ≠ '\n')

/-- The third group `.*[%|\x7d]\x7d` matches the characters from
`g + entLen` up to `e` (exclusive). -/
def tailOK (entLen : Nat) (cs : List Char) (g e : Nat) : Bool :=
  decide (g + entLen + 2 ≤ e) && decide (e ≤ cs.length) &&
  noNlBetween cs (g + entLen) (e - 2) &&
  isCloserFirst (charAtL cs (e - 2)) && (charAtL cs (e - 1) = '\x7d')

/-- A full match starting at opener `i` can place the entity at `g`. -/
def validG (ent : List Char) (cs : List Char) (i g : Nat) : Bool :=
  decide (i + 2 ≤ g) && noNlBetween cs (i + 2) g && entityAt ent cs g &&
  (List.range (cs.length + 1)).any (fun e => tailOK ent.length cs g e)

/-- Greedy first group: the largest entity position usable from `i`. -/
def bestG (ent : List Char) (cs : List Char) (i : Nat) : Option Nat :=
  ((List.range (cs.length + 1)).filter (fun g => validG ent cs i g)).getLast?

/-- Greedy third group: the largest match end for entity position `g`. -/
def bestE (entLen : Nat) (cs : List Char) (g : Nat) : Option Nat :=
  ((List.range (cs.length + 1)).filter (fun e => tailOK entLen cs g e)).getLast?

/-- Leftmost possible match start: the first opening pair from which a
full match exists. -/
def matchStart (ent : List Char) (cs : List Char) : Option Nat :=
  ((List.range cs.length).filter
    (fun i => openerAt cs i && (bestG ent cs i).isSome)).head?

/-- `re.sub` for one of the two patterns: repeatedly take the leftmost
greedy match, emit group1, the replacement character, group3, and resume
after the match end. `fuel` bounds the number of substitutions (each
consumes at least one character, so the text length suffices). -/
def reSubEntity (ent : List Char) (repl : Char) : Nat → List Char → List Char
  | 0, cs => cs
  | fuel + 1, cs =>
    match matchStart ent cs with
    | none => cs
    | some i =>
      match bestG ent cs i with
      | none => cs
      | some g =>
        match bestE ent.length cs g with
        | none => cs
        | some e =>
          cs.take g ++ repl :: ((cs.drop (g + ent.length)).take (e - (g + ent.length)))
            ++ reSubEntity ent repl fuel (cs.drop e)

/-- `unescape_gt_lt` (lines 190-200): the two substitutions in the order
of the source dict literal. -/
def unescape_gt_lt (s : String) : String :=
  let cs := s.toList
  let cs1 := reSubEntity "&gt;".toList '>' cs.length cs
  let cs2 := reSubEntity "&lt;".toList '<' cs1.length cs1
  String.mk cs2

/-- Modelled from the spec: the occurrence of four characters starting at
`g` lies inside a template-expression delimiter span, i.e. some opening
brace occurs strictly before it and some closing brace at or after its
end (a span of the shape brace ... brace; the percent-delimited form is a
special case). -/
def specInsideSpan (cs : List Char) (g : Nat) : Bool :=
  (List.range cs.length).any (fun a =>
    (List.range cs.length).any (fun b =>
      decide (a < g) && decide (g + 3 < b) &&
      (charAtL cs a = '\x7b') && (charAtL cs b = '\x7d')))

/-- Modelled from the spec: rewrite exactly the entity occurrences that
lie inside a delimiter span, leaving every other character alone. -/
def specRewriteGo (orig : List Char) : Nat → Nat → List Char
  | 0, _ => []
  | fuel + 1, pos =>
    if pos < orig.length then
      if entityAt "&gt;".toList orig pos && specInsideSpan orig pos then
        '>' :: specRewriteGo orig fuel (pos + 4)
      else if entityAt "&lt;".toList orig pos && specInsideSpan orig pos then
        '<' :: specRewriteGo orig fuel (pos + 4)
      else charAtL orig pos :: specRewriteGo orig fuel (pos + 1)
    else []

/-- Modelled from the spec: the whole-text rewrite the claim describes,
for comparison with the source function `unescape_gt_lt`. -/
def spec_unescape_inside_spans (s : String) : String :=
  String.mk (specRewriteGo s.toList s.toList.length 0)

/-- C6 counterexample: on a text with two expression spans on one line,
each holding an entity-escaped operator, the source function rewrites
only the second occurrence (the greedy first group swallows the first
span), while the claimed span-exact behavior rewrites both: the two
outputs differ, refuting "exactly when the entity occurs inside a
delimiter span". -/
theorem unescape_gt_lt_not_span_exact :
    unescape_gt_lt "\x7b\x7b a &gt; b \x7d\x7d \x7b\x7b c &gt; d \x7d\x7d"
      = "\x7b\x7b a &gt; b \x7d\x7d \x7b\x7b c > d \x7d\x7d"
    ∧ spec_unescape_inside_spans "\x7b\x7b a &gt; b \x7d\x7d \x7b\x7b c &gt; d \x7d\x7d"
      = "\x7b\x7b a > b \x7d\x7d \x7b\x7b c > d \x7d\x7d"
    ∧ unescape_gt_lt "\x7b\x7b a &gt; b \x7d\x7d \x7b\x7b c &gt; d \x7d\x7d"
      ≠ spec_unescape_inside_spans "\x7b\x7b a &gt; b \x7d\x7d \x7b\x7b c &gt; d \x7d\x7d" := by
  refine ⟨by decide, by decide, by decide⟩

/-- When no opening pair occurs in the text, no substitution matches. -/
theorem matchStart_eq_none (ent cs : List Char)
    (h : ∀ i, i < cs.length → openerAt cs i = false) :
    matchStart ent cs = none := by
  unfold matchStart
  have : (List.range cs.length).filter
      (fun i => openerAt cs i && (bestG ent cs i).isSome) = [] := by
    rw [List.filter_eq_nil]
    intro a ha
    rw [List.mem_range] at ha
    simp [h a ha]
  rw [this]
  rfl

/-- With no opening pair, one whole substitution pass is the identity. -/
theorem reSubEntity_of_no_opener (ent : List Char) (repl : Char)
    (fuel : Nat) (cs : List Char)
    (h : ∀ i, i < cs.length → openerAt cs i = false) :
    reSubEntity ent repl fuel cs = cs := by
  cases fuel with
  | zero => rfl
  | succ fuel =>
    unfold reSubEntity
    rw [matchStart_eq_none ent cs h]

/-- C6 (amended): the unescape pass is driven by greedy leftmost regex
matching, not by delimiter spans; in particular a text containing no
opening delimiter pair (an opening brace followed by an opening brace,
pipe, or percent) is returned unchanged, every entity occurrence left
encoded. (The counterexample shows the other direction of the original
claim fails: inside a text with delimiters, an in-span occurrence can be
left encoded.) -/
theorem unescape_gt_lt_without_opener_unchanged (s : String)
    (h : ∀ i, i < s.toList.length → openerAt s.toList i = false) :
    unescape_gt_lt s = s := by
  show String.mk (reSubEntity "&lt;".toList '<'
      (reSubEntity "&gt;".toList '>' s.toList.length s.toList).length
      (reSubEntity "&gt;".toList '>' s.toList.length s.toList)) = s
  rw [reSubEntity_of_no_opener _ _ _ _ h, reSubEntity_of_no_opener _ _ _ _ h]
  cases s
  rfl

/-- Witness for the C6 amended theorem: a brace-free text with an entity
passes through unchanged. -/
theorem unescape_gt_lt_without_opener_unchanged_witness :
    unescape_gt_lt "a &gt; b" = "a &gt; b" :=
  unescape_gt_lt_without_opener_unchanged "a &gt; b" (by decide)

/-! ### The DOM heap model for `Render.prepare_template_tags`
(src/secretary.py lines 239-364)

xml.dom.minidom builds a mutable object graph. The model is a heap: node
ids (naturals) play the role of Python object identities, and `Dom.f`
maps each id to its current node record. `Dom.len` is the id the next
created node receives. This mirrors the source faithfully where paths
could not: `getElementsByTagName` is computed once and yields node
identities whose tree positions later mutate; a node removed with
`removeChild` keeps its record (and its subtree keeps its internal
parent links) while its own `parent` becomes `none`, exactly as in
minidom. The three `secretary_*` counters are the dynamic attributes
`inc_node_fields_count` installs; `none` models a missing attribute
(reading it would raise AttributeError). -/

/-- One minidom node: `nodeName` (the tag name of an element, or the
literal hash-prefixed names of text and document nodes), its attributes,
its character data (text nodes), the ids of its children in order, its
parent id, and the three dynamic counters of `inc_node_fields_count`. -/
structure NodeData where
  nodeName : String := ""
  attrs : List (String × String) := []
  tdata : String := ""
  children : List Nat := []
  parent : Option Nat := none
  secretary_field_count : Option Nat := none
  secretary_variable_count : Option Nat := none
  secretary_block_count : Option Nat := none
deriving DecidableEq, Inhabited

/-- The heap: node records by id, plus the id of the next created node. -/
structure Dom where
  f : Nat → NodeData
  len : Nat

instance : Inhabited Dom := ⟨⟨fun _ => default, 0⟩⟩

/-- Read a node record. -/
def getN (dom : Dom) (i : Nat) : NodeData := dom.f i

/-- Overwrite a node record. -/
def updN (dom : Dom) (i : Nat) (nd : NodeData) : Dom :=
  ⟨fun k => if k = i then nd else dom.f k, dom.len⟩

/-- `xml_document.createTextNode(text)` (lines 261-265): create a fresh
text node, detached. Returns the heap and the new id. -/
def create_text_node (dom : Dom) (text : String) : Dom × Nat :=
  (⟨fun k => if k = dom.len then { nodeName := "#text", tdata := text } else dom.f k,
    dom.len + 1⟩, dom.len)

/-- `create_text_span_node` (lines 254-259): a `text:span` element whose
single child is a fresh text node. Returns the heap and the span id. -/
def create_text_span_node (dom : Dom) (content : String) : Dom × Nat :=
  let spanId := dom.len
  let txtId := dom.len + 1
  (⟨fun k =>
      if k = txtId then { nodeName := "#text", tdata := content, parent := some spanId }
      else if k = spanId then { nodeName := "text:span", children := [txtId] }
      else dom.f k,
    dom.len + 2⟩, spanId)

/-- minidom `parent.insertBefore(new, ref)`: splice `new` into the child
list right before `ref` and set its parent link. (The source only calls
it with a freshly created, detached `new` node.) -/
def insertBeforeD (dom : Dom) (parentId newId refId : Nat) : Dom :=
  let pd := getN dom parentId
  let dom1 := updN dom parentId
    { pd with children := insertAtIdx pd.children (idxOfNat pd.children refId) newId }
  updN dom1 newId { getN dom1 newId with parent := some parentId }

/-- minidom `parent.insertBefore(new, field.nextSibling)` as used at
line 357: splice right after `refId` (which is not the last child there). -/
def insertAfterD (dom : Dom) (parentId newId refId : Nat) : Dom :=
  let pd := getN dom parentId
  let dom1 := updN dom parentId
    { pd with children := insertAtIdx pd.children (idxOfNat pd.children refId + 1) newId }
  updN dom1 newId { getN dom1 newId with parent := some parentId }

/-- minidom `parent.appendChild(new)`: add as the last child. -/
def appendChildD (dom : Dom) (parentId newId : Nat) : Dom :=
  let pd := getN dom parentId
  let dom1 := updN dom parentId { pd with children := pd.children ++ [newId] }
  updN dom1 newId { getN dom1 newId with parent := some parentId }

/-- minidom `parent.removeChild(child)`: drop the child from the child
list; the detached node keeps its record but its parent becomes nil. -/
def removeChildD (dom : Dom) (parentId childId : Nat) : Dom :=
  let pd := getN dom parentId
  let dom1 := updN dom parentId
    { pd with children := eraseFirstNat pd.children childId }
  updN dom1 childId { getN dom1 childId with parent := none }

/-- `field.isSameNode(parent.lastChild)` (line 354). -/
def lastChildIs (dom : Dom) (parentId x : Nat) : Bool :=
  (getN dom parentId).children.getLast? = some x

/-- `node.getAttribute(name)`: minidom returns the empty string when the
attribute is absent. -/
def getAttributeD (dom : Dom) (n : Nat) (name : String) : String :=
  (lookupStr (getN dom n).attrs name).getD ""

/-- `s.lower()` of Python on the names compared by `node_parents`
(character-wise, kernel-computable unlike the library string map). -/
def strToLower (s : String) : String :=
  String.mk (s.toList.map Char.toLower)

/-- Result of a walk along parent links. `raise` models the Python
AttributeError raised when the walk dereferences the nil parent of the
document node (minidom nodes always *have* a `parentNode` attribute, so
the `hasattr` guard of `node_parents` never fires; at the document node
`parentNode` is `None` and reading `.nodeName`, or a `secretary_*`
counter, on `None` raises). `fuelOut` cannot occur on finite trees when
the fuel is at least the heap size. -/
inductive PRes where
  | found (n : Nat)
  | raise
  | fuelOut
deriving DecidableEq

/-- `Render.node_parents(node, parent_type)` (lines 239-251): return the
nearest strict ancestor whose lowercased node name equals `parent_type`.
On a minidom tree the `else: return None` branch of the source is dead
code: every node has a `parentNode` attribute, so when no ancestor
matches, the walk reaches the document node, whose `parentNode` is
`None`, and `None.nodeName` raises AttributeError (`PRes.raise`). -/
def node_parents (dom : Dom) (parent_type : String) : Nat → Nat → PRes
  | 0, _ => PRes.fuelOut
  | fuel + 1, node =>
    match (getN dom node).parent with
    | none => PRes.raise
    | some p =>
      if strToLower (getN dom p).nodeName = parent_type then PRes.found p
      else node_parents dom parent_type fuel p

/-- The hoist loop of `prepare_template_tags` (lines 335-336):
`while field.parentNode.secretary_field_count <= 1: field = field.parentNode`.
Reading the counter of a nil parent (or a counter never installed)
raises AttributeError. -/
def hoistWalk (dom : Dom) : Nat → Nat → PRes
  | 0, _ => PRes.fuelOut
  | fuel + 1, field =>
    match (getN dom field).parent with
    | none => PRes.raise
    | some p =>
      match (getN dom p).secretary_field_count with
      | none => PRes.raise
      | some c =>
        if c ≤ 1 then hoistWalk dom fuel p else PRes.found field

/-- `Render.inc_node_fields_count(node, field_type)` (lines 267-288):
install the three counters when absent, bump the total and the counter
of the given field type, and recurse on the parent until it is `None`. -/
def inc_node_fields_count (dom : Dom) (field_type : String) :
    Nat → Option Nat → Dom
  | _, none => dom
  | 0, some _ => dom
  | fuel + 1, some n =>
    let nd := getN dom n
    let fc := nd.secretary_field_count.getD 0
    let vc := nd.secretary_variable_count.getD 0
    let bc := nd.secretary_block_count.getD 0
    let nd' := { nd with
      secretary_field_count := some (fc + 1),
      secretary_variable_count :=
        some (if field_type = "variable" then vc + 1 else vc),
      secretary_block_count :=
        some (if field_type = "variable" then bc else bc + 1) }
    inc_node_fields_count (updN dom n nd') field_type fuel nd.parent

/-- Preorder traversal from a node (the node itself included) collecting
elements with the given node name, as minidom `getElementsByTagName`
enumerates descendants in document order. -/
def elemsFrom (dom : Dom) (tag : String) : Nat → Nat → List Nat
  | 0, _ => []
  | fuel + 1, n =>
    (if (getN dom n).nodeName = tag then [n] else []) ++
    ((getN dom n).children.map (fun c => elemsFrom dom tag fuel c)).flatten

/-- `xml_document.getElementsByTagName(tag)`: all matching descendants
of the given root, in document order. -/
def getElementsByTagName (dom : Dom) (root : Nat) (tag : String) : List Nat :=
  ((getN dom root).children.map (fun c => elemsFrom dom tag dom.len c)).flatten

/-- All node ids reachable from a root, in preorder (used to express
that a node is, or is no longer, part of the document tree). -/
def subtreeIds (dom : Dom) : Nat → Nat → List Nat
  | 0, _ => []
  | fuel + 1, n => n :: ((getN dom n).children.map (fun c => subtreeIds dom fuel c)).flatten

/-- `field.childNodes[0].data.replace('\n', '')` (lines 305 and 317).
The source reads it only after `hasChildNodes()`; the first child of a
field widget is its text content. -/
def fieldContent (dom : Dom) (field : Nat) : String :=
  removeNewlines (getN dom (headNat (getN dom field).children 0)).tdata

/-- `re.findall(r'(\x7b.*?\x7d*\x7d)', field_content)` is nonempty iff an
opening brace is followed, anywhere later, by a closing brace. -/
def hasJinjaTagS (s : String) : Bool :=
  match s.toList.dropWhile (fun c => c ≠ '\x7b') with
  | [] => false
  | _ :: rest => rest.contains '\x7d'

/-- `re.findall(r'(^\x7b\%.*?\%\x7d*\x7d)$', t)` is nonempty iff `t` is an
opening brace and percent, then anything, then a percent followed only by
closing braces, at least one (the lazy group must consume at least
nothing, the final class at least one closer). -/
def isBlockTagS (t : String) : Bool :=
  match t.toList with
  | '\x7b' :: '%' :: rest =>
    match rest.reverse with
    | '\x7d' :: r2 => (r2.dropWhile (fun c => c = '\x7d')).head? = some '%'
    | _ => false
  | _ => false

/-- `re.findall(r'\|markdown', field_content)` is nonempty iff the text
pipe-markdown occurs as a substring (line 327). -/
def hasMarkdownFilterS (s : String) : Bool :=
  hasSub "|markdown".toList s.toList

/-- `FLOW_REFERENCES` (lines 45-66), in source order. -/
def FLOW_REFERENCES : List (String × String) :=
  [("text:p", "text:p"),
   ("paragraph", "text:p"),
   ("before::paragraph", "text:p"),
   ("after::paragraph", "text:p"),
   ("table:table-row", "table:table-row"),
   ("table-row", "table:table-row"),
   ("row", "table:table-row"),
   ("before::table-row", "table:table-row"),
   ("after::table-row", "table:table-row"),
   ("before::row", "table:table-row"),
   ("after::row", "table:table-row"),
   ("table:table-cell", "table:table-cell"),
   ("table-cell", "table:table-cell"),
   ("cell", "table:table-cell"),
   ("before::table-cell", "table:table-cell"),
   ("after::table-cell", "table:table-cell"),
   ("before::cell", "table:table-cell"),
   ("after::cell", "table:table-cell")]

/-- `SUPPORTED_FIELD_REFERECES` (line 68; name as in the source). -/
def SUPPORTED_FIELD_REFERECES : List String :=
  ["text:p", "table:table-row", "table:table-cell"]

/-- The effective scope reference of a field: its `text:description`
attribute, overridden to the paragraph tag when the content applies the
markdown filter (lines 325-329). -/
def effectiveReference (dom : Dom) (field : Nat) : String :=
  if hasMarkdownFilterS (fieldContent dom field) then "text:p"
  else getAttributeD dom field "text:description"

/-- One iteration of the first loop of `prepare_template_tags`
(lines 301-313): count the field on its parent chain when its content
matches the template-expression pattern. -/
def countField (dom : Dom) (field : Nat) : Dom :=
  if (getN dom field).children = [] then dom
  else if hasJinjaTagS (fieldContent dom field) = false then dom
  else
    inc_node_fields_count dom
      (if isBlockTagS (pyStripS (fieldContent dom field)) = false
       then "variable" else "block")
      dom.len (getN dom field).parent

/-- One iteration of the second loop of `prepare_template_tags`
(lines 315-364) on the field with id `field`. `none` models the loop
raising (AttributeError from a parent walk, see `PRes`), which aborts
the whole pass in Python. -/
def promoteField (dom : Dom) (field : Nat) : Option Dom :=
  if (getN dom field).children = [] then some dom
  else if hasJinjaTagS (fieldContent dom field) = false then some dom
  else
    let field_content := fieldContent dom field
    let keep_field := field
    let field_reference := effectiveReference dom field
    let step : Option (Dom × Nat × Nat) :=
      if field_reference = "" then
        if isBlockTagS (pyStripS field_content) then
          match hoistWalk dom dom.len field with
          | PRes.found fd =>
            let created := create_text_node dom field_content
            some (created.1, created.2, fd)
          | _ => none
        else
          let created := create_text_span_node dom field_content
          some (created.1, created.2, field)
      else
        let odt_reference :=
          (lookupStr FLOW_REFERENCES (pyStripS field_reference)).getD field_reference
        if elemStr SUPPORTED_FIELD_REFERECES odt_reference then
          match node_parents dom odt_reference dom.len field with
          | PRes.found p =>
            let created := create_text_node dom field_content
            some (created.1, created.2, p)
          | _ => none
        else
          let created := create_text_node dom field_content
          some (created.1, created.2, field)
    match step with
    | none => none
    | some (dom1, jinja_tag_node, fieldD) =>
      match (getN dom1 fieldD).parent with
      | none => none
      | some parentId =>
        let dom2 :=
          if strStartsWith field_reference "after::" = false then
            insertBeforeD dom1 parentId jinja_tag_node fieldD
          else if lastChildIs dom1 parentId fieldD then
            appendChildD dom1 parentId jinja_tag_node
          else
            insertAfterD dom1 parentId jinja_tag_node fieldD
        if strStartsWith field_reference "after::"
            || strStartsWith field_reference "before::" then
          match node_parents dom2 "text:p" dom2.len keep_field with
          | PRes.found fd2 =>
            match (getN dom2 fd2).parent with
            | none => none
            | some qp => some (removeChildD dom2 qp fd2)
          | _ => none
        else some (removeChildD dom2 parentId fieldD)

/-- The first (counting) loop of `prepare_template_tags` over the field
list computed once up front. -/
def annotateFields (dom : Dom) (fields : List Nat) : Dom :=
  fields.foldl countField dom

/-- `Render.prepare_template_tags(xml_document)` (lines 290-364): collect
the field widgets once, run the counting loop, then the promotion loop.
`none` models an uncaught exception from the promotion loop. -/
def prepare_template_tags (dom : Dom) (docId : Nat) : Option Dom :=
  let fields := getElementsByTagName dom docId "text:text-input"
  let dom1 := annotateFields dom fields
  fields.foldlM promoteField dom1

/-- The counting pass as run by `prepare_template_tags` on a document. -/
def annotatedDom (dom : Dom) (docId : Nat) : Dom :=
  annotateFields dom (getElementsByTagName dom docId "text:text-input")

/-- `n`-fold parent step (for stating facts about ancestor chains). -/
def iterParent (dom : Dom) : Nat → Nat → Option Nat
  | 0, x => some x
  | i + 1, x =>
    match (getN dom x).parent with
    | none => none
    | some p => iterParent dom i p

/-- Build a heap from a list of node records (ids = list positions). -/
def mkDom (nodes : List NodeData) : Dom :=
  ⟨fun k => nodes.getD k default, nodes.length⟩

/-- A document with one table row holding two cells, each cell a
paragraph with one block field: the for / endfor pair of a loop over a
table row. Ids: 0 document, 1 row, 2 and 6 cells, 3 and 7 paragraphs,
4 and 8 field widgets, 5 and 9 their text contents. -/
def domTwoBlocks : Dom := mkDom
  [{ nodeName := "#document", children := [1] },
   { nodeName := "table:table-row", children := [2, 6], parent := some 0 },
   { nodeName := "table:table-cell", children := [3], parent := some 1 },
   { nodeName := "text:p", children := [4], parent := some 2 },
   { nodeName := "text:text-input", children := [5], parent := some 3 },
   { nodeName := "#text", tdata := "\x7b% for x in xs %\x7d", parent := some 4 },
   { nodeName := "table:table-cell", children := [7], parent := some 1 },
   { nodeName := "text:p", children := [8], parent := some 6 },
   { nodeName := "text:text-input", children := [9], parent := some 7 },
   { nodeName := "#text", tdata := "\x7b% endfor %\x7d", parent := some 8 }]

/-- A document holding exactly one qualifying block field (no ancestor
is shared with another field). Ids: 0 document, 1 body, 2 paragraph,
3 field widget, 4 its text. -/
def domOneBlock : Dom := mkDom
  [{ nodeName := "#document", children := [1] },
   { nodeName := "office:body", children := [2], parent := some 0 },
   { nodeName := "text:p", children := [3], parent := some 1 },
   { nodeName := "text:text-input", children := [4], parent := some 2 },
   { nodeName := "#text", tdata := "\x7b% if x %\x7d", parent := some 3 }]

/-- A field whose scope reference resolves to the cell tag while no cell
ancestor exists. Ids: 0 document, 1 paragraph, 2 field widget, 3 text. -/
def domCellRefNoCell : Dom := mkDom
  [{ nodeName := "#document", children := [1] },
   { nodeName := "text:p", children := [2], parent := some 0 },
   { nodeName := "text:text-input", children := [3], parent := some 1,
     attrs := [("text:description", "cell")] },
   { nodeName := "#text", tdata := "\x7b\x7b x \x7d\x7d", parent := some 2 }]

/-- A field whose scope reference is not a key of the flow table and not
a supported tag. Ids: 0 document, 1 paragraph, 2 field widget, 3 text. -/
def domBogusRef : Dom := mkDom
  [{ nodeName := "#document", children := [1] },
   { nodeName := "text:p", children := [2], parent := some 0 },
   { nodeName := "text:text-input", children := [3], parent := some 1,
     attrs := [("text:description", "bogus")] },
   { nodeName := "#text", tdata := "\x7b\x7b x \x7d\x7d", parent := some 2 }]

/-- A paragraph holding one paragraph-scoped matching field and one
ordinary widget whose text matches no template expression. Ids:
0 document, 1 body, 2 paragraph, 3 scoped field, 4 ordinary widget,
5 and 6 their texts. -/
def domPlainWidget : Dom := mkDom
  [{ nodeName := "#document", children := [1] },
   { nodeName := "office:body", children := [2], parent := some 0 },
   { nodeName := "text:p", children := [3, 4], parent := some 1 },
   { nodeName := "text:text-input", children := [5], parent := some 2,
     attrs := [("text:description", "paragraph")] },
   { nodeName := "text:text-input", children := [6], parent := some 2 },
   { nodeName := "#text", tdata := "\x7b\x7b v \x7d\x7d", parent := some 3 },
   { nodeName := "#text", tdata := "hello", parent := some 4 }]

/-- A cell that is the last child of its row, holding a paragraph with a
field scoped after the cell. Ids: 0 document, 1 row, 2 cell,
3 paragraph, 4 field widget, 5 text. -/
def domAfterCell : Dom := mkDom
  [{ nodeName := "#document", children := [1] },
   { nodeName := "table:table-row", children := [2], parent := some 0 },
   { nodeName := "table:table-cell", children := [3], parent := some 1 },
   { nodeName := "text:p", children := [4], parent := some 2 },
   { nodeName := "text:text-input", children := [5], parent := some 3,
     attrs := [("text:description", "after::cell")] },
   { nodeName := "#text", tdata := "\x7b% endfor %\x7d", parent := some 4 }]

/-- Occurrence count in a list of naturals. -/
def countNat : List Nat → Nat → Nat
  | [], _ => 0
  | x :: xs, n => (if x = n then 1 else 0) + countNat xs n

/-- A zero count means no occurrence. -/
theorem containsNat_eq_false_of_countNat_zero (l : List Nat) (n : Nat)
    (h : countNat l n = 0) : containsNat l n = false := by
  induction l with
  | nil => rfl
  | cons x xs ih =>
    by_cases hx : x = n
    · simp [countNat, hx] at h
    · simp only [countNat, hx, if_false] at h
      have h' : countNat xs n = 0 := by omega
      simp [containsNat, hx, ih h']

/-- Erasing the only occurrence removes the element. -/
theorem containsNat_eraseFirst_of_countNat_le_one (l : List Nat) (n : Nat)
    (h : countNat l n ≤ 1) : containsNat (eraseFirstNat l n) n = false := by
  induction l with
  | nil => rfl
  | cons x xs ih =>
    by_cases hx : x = n
    · simp only [countNat, hx, if_true] at h
      simp only [eraseFirstNat, hx, if_true]
      exact containsNat_eq_false_of_countNat_zero xs n (by omega)
    · simp only [countNat, hx, if_false] at h
      simp only [eraseFirstNat, hx, if_false]
      have h' : countNat xs n ≤ 1 := by omega
      simp [containsNat, hx, ih h']

/-- A member of a list is a member after appending. -/
theorem containsNat_append_left (l : List Nat) (a x : Nat)
    (h : containsNat l x = true) : containsNat (l ++ [a]) x = true := by
  induction l with
  | nil => simp [containsNat] at h
  | cons y ys ih =>
    simp only [containsNat, Bool.or_eq_true] at h
    rcases h with h | h
    · simp [containsNat, h]
    · simp [containsNat, ih h]

/-- The last element of a list is a member. -/
theorem containsNat_of_getLast? (l : List Nat) (c : Nat)
    (h : l.getLast? = some c) : containsNat l c = true := by
  induction l with
  | nil => simp at h
  | cons x xs ih =>
    cases xs with
    | nil =>
      simp only [List.getLast?_singleton, Option.some.injEq] at h
      simp [containsNat, h]
    | cons y ys =>
      rw [List.getLast?_cons_cons] at h
      have hmem := ih h
      simp only [containsNat, Bool.or_eq_true] at hmem ⊢
      exact Or.inr hmem

/-- Specification of the hoist loop when it terminates with a node: the
parent of the returned node carries a total-field counter of at least
two, and every ancestor strictly between the start and that parent (the
walked-through nodes, the returned node included) carries a counter of
at most one. -/
theorem hoistWalk_found_spec (dom : Dom) :
    ∀ fuel field fd, hoistWalk dom fuel field = PRes.found fd →
      ∃ d cd, (getN dom fd).parent = some d
        ∧ (getN dom d).secretary_field_count = some cd ∧ 2 ≤ cd
        ∧ ∃ k, iterParent dom k field = some fd
          ∧ ∀ i, 1 ≤ i → i ≤ k →
              ∃ q cq, iterParent dom i field = some q
                ∧ (getN dom q).secretary_field_count = some cq ∧ cq ≤ 1
  | 0, field, fd => by intro h; exact absurd h (by simp [hoistWalk])
  | fuel + 1, field, fd => by
    intro h
    unfold hoistWalk at h
    cases hp : (getN dom field).parent with
    | none => simp only [hp] at h; exact PRes.noConfusion h
    | some p =>
      simp only [hp] at h
      cases hc : (getN dom p).secretary_field_count with
      | none => simp only [hc] at h; exact PRes.noConfusion h
      | some c =>
        simp only [hc] at h
        by_cases hle : c ≤ 1
        · rw [if_pos hle] at h
          obtain ⟨d, cd, h1, h2, h3, k, h4, h5⟩ := hoistWalk_found_spec dom fuel p fd h
          refine ⟨d, cd, h1, h2, h3, k + 1, ?_, ?_⟩
          · simpa [iterParent, hp] using h4
          · intro i hi1 hik
            cases i with
            | zero => omega
            | succ i0 =>
              cases i0 with
              | zero => exact ⟨p, c, by simp [iterParent, hp], hc, hle⟩
              | succ i1 =>
                obtain ⟨q, cq, hq1, hq2, hq3⟩ := h5 (i1 + 1) (by omega) (by omega)
                exact ⟨q, cq, by simpa [iterParent, hp] using hq1, hq2, hq3⟩
        · rw [if_neg hle] at h
          injection h with h'
          subst h'
          refine ⟨p, c, hp, hc, by omega, 0, by simp [iterParent], ?_⟩
          intro i hi1 hik
          omega

/-- When every strict ancestor carries a counter of at most one and the
chain reaches a parentless root, the hoist loop dereferences the nil
parent of that root and raises. -/
theorem hoistWalk_raise_spec (dom : Dom) :
    ∀ n fuel field r, iterParent dom n field = some r →
      (getN dom r).parent = none →
      (∀ i, 1 ≤ i → i ≤ n →
        ∃ q cq, iterParent dom i field = some q
          ∧ (getN dom q).secretary_field_count = some cq ∧ cq ≤ 1) →
      n < fuel → hoistWalk dom fuel field = PRes.raise
  | 0, fuel, field, r => by
    intro h hr hcounts hfuel
    simp only [iterParent, Option.some.injEq] at h
    subst h
    cases fuel with
    | zero => omega
    | succ m =>
      unfold hoistWalk
      simp only [hr]
  | n + 1, fuel, field, r => by
    intro h hr hcounts hfuel
    cases hp : (getN dom field).parent with
    | none => rw [iterParent, hp] at h; cases h
    | some p =>
      have h' : iterParent dom n p = some r := by
        rw [iterParent, hp] at h; exact h
      obtain ⟨q, cq, hq1, hq2, hq3⟩ := hcounts 1 (by omega) (by omega)
      rw [iterParent, hp] at hq1
      simp only [iterParent, Option.some.injEq] at hq1
      subst hq1
      cases fuel with
      | zero => omega
      | succ m =>
        unfold hoistWalk
        simp only [hp, hq2, if_pos hq3]
        exact hoistWalk_raise_spec dom n m p r h' hr
          (fun i hi1 hin => by
            obtain ⟨q', cq', hq1', hq2', hq3'⟩ := hcounts (i + 1) (by omega) (by omega)
            rw [iterParent, hp] at hq1'
            exact ⟨q', cq', hq1', hq2', hq3'⟩)
          (by omega)

/-- When no strict ancestor bears the requested lowercased node name and
the chain reaches a parentless root, `node_parents` dereferences the nil
parent of that root and raises (it cannot return its documented None). -/
theorem node_parents_raise_spec (dom : Dom) (pt : String) :
    ∀ n fuel field r, iterParent dom n field = some r →
      (getN dom r).parent = none →
      (∀ i q, 1 ≤ i → i ≤ n → iterParent dom i field = some q →
        strToLower (getN dom q).nodeName ≠ pt) →
      n < fuel → node_parents dom pt fuel field = PRes.raise
  | 0, fuel, field, r => by
    intro h hr hnames hfuel
    simp only [iterParent, Option.some.injEq] at h
    subst h
    cases fuel with
    | zero => omega
    | succ m =>
      unfold node_parents
      simp only [hr]
  | n + 1, fuel, field, r => by
    intro h hr hnames hfuel
    cases hp : (getN dom field).parent with
    | none => rw [iterParent, hp] at h; cases h
    | some p =>
      have h' : iterParent dom n p = some r := by
        rw [iterParent, hp] at h; exact h
      have hname : strToLower (getN dom p).nodeName ≠ pt := by
        refine hnames 1 p (by omega) (by omega) ?_
        simp [iterParent, hp]
      cases fuel with
      | zero => omega
      | succ m =>
        unfold node_parents
        simp only [hp, if_neg hname]
        exact node_parents_raise_spec dom pt n m p r h' hr
          (fun i q hi1 hin hq => by
            refine hnames (i + 1) q (by omega) (by omega) ?_
            rw [iterParent, hp]
            exact hq)
          (by omega)

/-- `node_parents` only consults the parent links and node names of the
nodes below `n0`; two heaps agreeing there (with parents staying below
`n0`) walk identically. -/
theorem node_parents_congr (dom dom' : Dom) (n0 : Nat) (pt : String)
    (hb : ∀ k, k < n0 → ∀ p, (getN dom k).parent = some p → p < n0)
    (hag : ∀ k, k < n0 → (getN dom' k).parent = (getN dom k).parent
        ∧ (getN dom' k).nodeName = (getN dom k).nodeName) :
    ∀ fuel s, s < n0 → node_parents dom' pt fuel s = node_parents dom pt fuel s
  | 0, s => fun _ => rfl
  | fuel + 1, s => fun hs => by
    unfold node_parents
    rw [(hag s hs).1]
    cases hp : (getN dom s).parent with
    | none => simp only [hp]
    | some p =>
      have hplt : p < n0 := hb s hs p hp
      simp only [hp]
      rw [(hag p hplt).2]
      by_cases hname : strToLower (getN dom p).nodeName = pt
      · rw [if_pos hname, if_pos hname]
      · rw [if_neg hname, if_neg hname]
        exact node_parents_congr dom dom' n0 pt hb hag fuel p hplt

/-- A successful `node_parents` search is stable under extra fuel. -/
theorem node_parents_found_mono (dom : Dom) (pt : String) :
    ∀ fuel fuel' s r, node_parents dom pt fuel s = PRes.found r →
      fuel ≤ fuel' → node_parents dom pt fuel' s = PRes.found r
  | 0, _, s, r => by intro h; exact absurd h (by simp [node_parents])
  | fuel + 1, fuel', s, r => by
    intro h hle
    unfold node_parents at h
    cases fuel' with
    | zero => omega
    | succ m =>
      unfold node_parents
      cases hp : (getN dom s).parent with
      | none => simp only [hp] at h ⊢; exact h
      | some p =>
        simp only [hp] at h ⊢
        by_cases hname : strToLower (getN dom p).nodeName = pt
        · rw [if_pos hname] at h ⊢; exact h
        · rw [if_neg hname] at h ⊢
          exact node_parents_found_mono dom pt fuel m p r h (by omega)

/-- C3: for a block-classified field with no scope reference that the
promotion pass hoists, the destination ancestor (the parent of the node
the hoist loop returns, into which the bare text node is inserted)
carries a pre-promotion annotated total-field counter of at least two,
and every ancestor strictly between the field and that destination
carries a counter of at most one. Counters are those installed by the
counting loop of `prepare_template_tags`, i.e. by `annotatedDom`. -/
theorem hoist_stops_at_first_shared_ancestor (dom0 : Dom) (docId field fd : Nat)
    (hfield : containsNat (getElementsByTagName dom0 docId "text:text-input") field = true)
    (hblock : isBlockTagS (pyStripS (fieldContent dom0 field)) = true)
    (hnoref : effectiveReference dom0 field = "")
    (hwalk : hoistWalk (annotatedDom dom0 docId) (annotatedDom dom0 docId).len field
      = PRes.found fd) :
    ∃ d cd, (getN (annotatedDom dom0 docId) fd).parent = some d
      ∧ (getN (annotatedDom dom0 docId) d).secretary_field_count = some cd ∧ 2 ≤ cd
      ∧ ∃ k, iterParent (annotatedDom dom0 docId) k field = some fd
        ∧ ∀ i, 1 ≤ i → i ≤ k →
            ∃ q cq, iterParent (annotatedDom dom0 docId) i field = some q
              ∧ (getN (annotatedDom dom0 docId) q).secretary_field_count = some cq
              ∧ cq ≤ 1 :=
  hoistWalk_found_spec (annotatedDom dom0 docId) (annotatedDom dom0 docId).len
    field fd hwalk

/-- Witness for C3: in `domTwoBlocks`, the for-loop field (id 4) hoists
to the first cell (id 2); the destination ancestor is the row (id 1)
with counter 2, and the walked-through paragraph and cell have counter 1. -/
theorem hoist_stops_at_first_shared_ancestor_witness :
    ∃ d cd, (getN (annotatedDom domTwoBlocks 0) 2).parent = some d
      ∧ (getN (annotatedDom domTwoBlocks 0) d).secretary_field_count = some cd ∧ 2 ≤ cd
      ∧ ∃ k, iterParent (annotatedDom domTwoBlocks 0) k 4 = some 2
        ∧ ∀ i, 1 ≤ i → i ≤ k →
            ∃ q cq, iterParent (annotatedDom domTwoBlocks 0) i 4 = some q
              ∧ (getN (annotatedDom domTwoBlocks 0) q).secretary_field_count = some cq
              ∧ cq ≤ 1 :=
  hoist_stops_at_first_shared_ancestor domTwoBlocks 0 4 2
    (by decide) (by decide) (by decide) (by decide)

/-- C10: when no strict ancestor of an unscoped block field carries an
annotated total-field counter of two or more (each carries a counter of
at most one, as when the field is the only qualifying field), the hoist
loop walks past the parentless document root and raises AttributeError
(`PRes.raise`) instead of terminating with a destination node. -/
theorem hoist_raises_without_shared_ancestor (dom0 : Dom) (docId field n r : Nat)
    (hfield : containsNat (getElementsByTagName dom0 docId "text:text-input") field = true)
    (hblock : isBlockTagS (pyStripS (fieldContent dom0 field)) = true)
    (hnoref : effectiveReference dom0 field = "")
    (hroot : iterParent (annotatedDom dom0 docId) n field = some r)
    (hrootp : (getN (annotatedDom dom0 docId) r).parent = none)
    (hcounts : ∀ i, 1 ≤ i → i ≤ n →
      ∃ q cq, iterParent (annotatedDom dom0 docId) i field = some q
        ∧ (getN (annotatedDom dom0 docId) q).secretary_field_count = some cq ∧ cq ≤ 1)
    (hfuel : n < (annotatedDom dom0 docId).len) :
    hoistWalk (annotatedDom dom0 docId) (annotatedDom dom0 docId).len field
      = PRes.raise :=
  hoistWalk_raise_spec (annotatedDom dom0 docId) n (annotatedDom dom0 docId).len
    field r hroot hrootp hcounts hfuel

/-- Witness for C10: in `domOneBlock` the single block field (id 3) has
ancestors paragraph, body, document, all with counter 1; the hoist loop
raises, and the whole `prepare_template_tags` pass aborts (`none`). -/
theorem hoist_raises_without_shared_ancestor_witness :
    hoistWalk (annotatedDom domOneBlock 0) (annotatedDom domOneBlock 0).len 3
      = PRes.raise
    ∧ (prepare_template_tags domOneBlock 0).isNone = true :=
  ⟨hoist_raises_without_shared_ancestor domOneBlock 0 3 3 0
    (by decide) (by decide) (by decide) (by decide) (by decide)
    (fun i h1 h3 =>
      match i, h1, h3 with
      | 1, _, _ => ⟨2, 1, by decide, by decide, by decide⟩
      | 2, _, _ => ⟨1, 1, by decide, by decide, by decide⟩
      | 3, _, _ => ⟨0, 1, by decide, by decide, by decide⟩)
    (by decide),
   by decide⟩

/-- A reference string whose trimmed form is not a key of the flow table
cannot be in the supported-scope allow-list either: each supported tag is
its own trimmed form and a key of the table. -/
theorem unresolved_not_supported (ref : String)
    (hlk : lookupStr FLOW_REFERENCES (pyStripS ref) = none) :
    elemStr SUPPORTED_FIELD_REFERECES ref = false := by
  cases hb : elemStr SUPPORTED_FIELD_REFERECES ref with
  | false => rfl
  | true =>
    exfalso
    simp only [SUPPORTED_FIELD_REFERECES, elemStr, Bool.or_eq_true,
      decide_eq_true_eq, Bool.false_eq_true, or_false] at hb
    rcases hb with h | h | h <;> (subst h; revert hlk; decide)

/-- Destination resolution for an unresolved scope reference (one whose
trimmed form is not a key of the flow table, hence not supported): the
destination degrades to the field node itself, and the promotion of the
field completes without raising, inserting the bare text node right
before the field and removing the field. -/
theorem promoteField_unresolved_reference (dom : Dom) (field c0 : Nat)
    (cr : List Nat) (ref : String) (pf : Nat)
    (hch : (getN dom field).children = c0 :: cr)
    (hjin : hasJinjaTagS (fieldContent dom field) = true)
    (href : effectiveReference dom field = ref)
    (hne : ref ≠ "")
    (hlk : lookupStr FLOW_REFERENCES (pyStripS ref) = none)
    (haft : strStartsWith ref "after::" = false)
    (hbef : strStartsWith ref "before::" = false)
    (hflt : field < dom.len)
    (hpar : (getN dom field).parent = some pf) :
    promoteField dom field
      = some (removeChildD
          (insertBeforeD (create_text_node dom (fieldContent dom field)).1 pf
            (create_text_node dom (fieldContent dom field)).2 field)
          pf field) := by
  have hsup : elemStr SUPPORTED_FIELD_REFERECES ref = false :=
    unresolved_not_supported ref hlk
  have hpar1 : (getN (create_text_node dom (fieldContent dom field)).1 field).parent
      = some pf := by
    simp only [create_text_node, getN]
    rw [if_neg (Nat.ne_of_lt hflt)]
    exact hpar
  simp only [promoteField, hch, hjin, href, hne, hlk, hsup, hpar1, haft, hbef,
    Option.getD, Bool.false_eq_true, if_false, Bool.or_self, reduceCtorEq,
    ite_false, ite_true]

/-- Destination resolution for a reference resolving to a supported
structural tag when no ancestor bears that tag: the ancestor search
dereferences the nil parent of the document root and the promotion of
the field raises (`none`), instead of falling back to the field node. -/
theorem promoteField_supported_reference_no_ancestor (dom : Dom) (field c0 : Nat)
    (cr : List Nat) (ref odt : String) (n r : Nat)
    (hch : (getN dom field).children = c0 :: cr)
    (hjin : hasJinjaTagS (fieldContent dom field) = true)
    (href : effectiveReference dom field = ref)
    (hne : ref ≠ "")
    (hlk : lookupStr FLOW_REFERENCES (pyStripS ref) = some odt)
    (hsup : elemStr SUPPORTED_FIELD_REFERECES odt = true)
    (hroot : iterParent dom n field = some r)
    (hrootp : (getN dom r).parent = none)
    (hnames : ∀ i q, 1 ≤ i → i ≤ n → iterParent dom i field = some q →
      strToLower (getN dom q).nodeName ≠ odt)
    (hfuel : n < dom.len) :
    promoteField dom field = none := by
  have hraise : node_parents dom odt dom.len field = PRes.raise :=
    node_parents_raise_spec dom odt n dom.len field r hroot hrootp hnames hfuel
  simp only [promoteField, hch, hjin, href, hne, hlk, hsup, hraise,
    Option.getD, Bool.false_eq_true, if_false, reduceCtorEq, ite_false, ite_true]

/-- C4 (amended): for a field carrying a scope-reference attribute,
destination resolution behaves in two modes. A reference string whose
trimmed form is not in the flow-reference table is treated as a literal
tag name, fails the supported-scope allow-list, and the destination
degrades to the field node itself without raising (for a plain reference
the promotion completes, replacing the field in place). But when the
reference resolves to a supported structural tag (paragraph / row /
cell) and no ancestor with that tag exists, `prepare_template_tags` does
not fall back to the field node: the upward search dereferences the nil
parent of the document root and the pass raises AttributeError. -/
theorem scoped_reference_destination :
    (∀ (dom : Dom) (field c0 : Nat) (cr : List Nat) (ref : String) (pf : Nat),
      (getN dom field).children = c0 :: cr →
      hasJinjaTagS (fieldContent dom field) = true →
      effectiveReference dom field = ref →
      ref ≠ "" →
      lookupStr FLOW_REFERENCES (pyStripS ref) = none →
      strStartsWith ref "after::" = false →
      strStartsWith ref "before::" = false →
      field < dom.len →
      (getN dom field).parent = some pf →
      promoteField dom field
        = some (removeChildD
            (insertBeforeD (create_text_node dom (fieldContent dom field)).1 pf
              (create_text_node dom (fieldContent dom field)).2 field)
            pf field))
    ∧ (∀ (dom : Dom) (field c0 : Nat) (cr : List Nat) (ref odt : String) (n r : Nat),
      (getN dom field).children = c0 :: cr →
      hasJinjaTagS (fieldContent dom field) = true →
      effectiveReference dom field = ref →
      ref ≠ "" →
      lookupStr FLOW_REFERENCES (pyStripS ref) = some odt →
      elemStr SUPPORTED_FIELD_REFERECES odt = true →
      iterParent dom n field = some r →
      (getN dom r).parent = none →
      (∀ i q, 1 ≤ i → i ≤ n → iterParent dom i field = some q →
        strToLower (getN dom q).nodeName ≠ odt) →
      n < dom.len →
      promoteField dom field = none) :=
  ⟨fun dom field c0 cr ref pf hch hjin href hne hlk haft hbef hflt hpar =>
      promoteField_unresolved_reference dom field c0 cr ref pf
        hch hjin href hne hlk haft hbef hflt hpar,
   fun dom field c0 cr ref odt n r hch hjin href hne hlk hsup hroot hrootp hnames hfuel =>
      promoteField_supported_reference_no_ancestor dom field c0 cr ref odt n r
        hch hjin href hne hlk hsup hroot hrootp hnames hfuel⟩

/-- C4 counterexample: the field of `domCellRefNoCell` carries the scope
reference cell, which resolves to the supported cell tag, but no cell
ancestor exists; `node_parents` raises and the whole
`prepare_template_tags` pass aborts, contradicting the claim that the
pass never raises because of the attribute and falls back to the field
node itself. -/
theorem scoped_reference_no_ancestor_raises :
    getAttributeD domCellRefNoCell 2 "text:description" = "cell"
    ∧ lookupStr FLOW_REFERENCES (pyStripS "cell") = some "table:table-cell"
    ∧ node_parents domCellRefNoCell "table:table-cell" domCellRefNoCell.len 2
        = PRes.raise
    ∧ (prepare_template_tags domCellRefNoCell 0).isNone = true :=
  ⟨by decide, by decide, by decide, by decide⟩

/-- Witness for the C4 amended theorem: the bogus reference of
`domBogusRef` degrades to an in-place replacement of the field, and the
unreachable cell reference of `domCellRefNoCell` makes the promotion
raise. -/
theorem scoped_reference_destination_witness :
    promoteField domBogusRef 2
      = some (removeChildD
          (insertBeforeD (create_text_node domBogusRef (fieldContent domBogusRef 2)).1 1
            (create_text_node domBogusRef (fieldContent domBogusRef 2)).2 2)
          1 2)
    ∧ promoteField domCellRefNoCell 2 = none :=
  ⟨scoped_reference_destination.1 domBogusRef 2 3 [] "bogus" 1
      (by decide) (by decide) (by decide) (by decide) (by decide)
      (by decide) (by decide) (by decide) (by decide),
   scoped_reference_destination.2 domCellRefNoCell 2 3 [] "cell" "table:table-cell" 2 0
      (by decide) (by decide) (by decide) (by decide) (by decide) (by decide)
      (by decide) (by decide)
      (fun i q h1 h2 hq =>
        match i, h1, h2, hq with
        | 1, _, _, hq => by
          rw [show iterParent domCellRefNoCell 1 2 = some 1 from by decide] at hq
          injection hq with hq'
          subst hq'
          decide
        | 2, _, _, hq => by
          rw [show iterParent domCellRefNoCell 2 2 = some 0 from by decide] at hq
          injection hq with hq'
          subst hq'
          decide)
      (by decide)⟩

/-- C7 (amended): a placeholder widget whose child text does not match
the template-expression pattern is never itself targeted: processing it
is a no-op in both the counting loop and the promotion loop (its record
and subtree are untouched by its own processing). Whole-tree byte
identity at the node does not follow: another field's promotion may
remove an enclosing ancestor and detach the widget with it (see the
counterexample). -/
theorem nonmatching_widget_not_touched (dom : Dom) (w : Nat)
    (h : (getN dom w).children = [] ∨ hasJinjaTagS (fieldContent dom w) = false) :
    countField dom w = dom ∧ promoteField dom w = some dom := by
  rcases h with h | h
  · constructor
    · unfold countField; rw [if_pos h]
    · unfold promoteField; rw [if_pos h]
  · constructor
    · unfold countField
      by_cases hch : (getN dom w).children = []
      · rw [if_pos hch]
      · rw [if_neg hch, if_pos h]
    · unfold promoteField
      by_cases hch : (getN dom w).children = []
      · rw [if_pos hch]
      · rw [if_neg hch, if_pos h]

/-- Witness for the C7 amended theorem: the ordinary widget (id 4) of
`domPlainWidget`, whose text is hello, is a no-op for both loops. -/
theorem nonmatching_widget_not_touched_witness :
    countField domPlainWidget 4 = domPlainWidget
    ∧ promoteField domPlainWidget 4 = some domPlainWidget :=
  nonmatching_widget_not_touched domPlainWidget 4 (Or.inr (by decide))

/-- C7 counterexample: in `domPlainWidget` the ordinary widget (id 4,
text hello, no template expression) sits in the same paragraph as a
paragraph-scoped field; the promotion of that other field removes the
whole paragraph, so after `prepare_template_tags` the widget is no
longer reachable from the document root — its pre-promotion subtree is
not preserved in the tree, refuting byte-for-byte identity at that node. -/
theorem nonmatching_widget_detached :
    hasJinjaTagS (fieldContent domPlainWidget 4) = false
    ∧ containsNat (subtreeIds domPlainWidget domPlainWidget.len 0) 4 = true
    ∧ (prepare_template_tags domPlainWidget 0).map
        (fun d => containsNat (subtreeIds d d.len 0) 4) = some false :=
  ⟨by decide, by decide, by decide⟩

/-- Equation for the promotion of an after-cell scoped field whose cell
ancestor is the last child of its parent: the bare text node is created,
appended as the new last child of the cell parent, and the nearest
paragraph ancestor of the original field is removed from its own parent. -/
theorem promoteField_after_cell_eq (dom : Dom) (field c0 : Nat) (cr : List Nat)
    (c pc q qp : Nat)
    (hch : (getN dom field).children = c0 :: cr)
    (hjin : hasJinjaTagS (fieldContent dom field) = true)
    (href : effectiveReference dom field = "after::cell")
    (hcell : node_parents dom "table:table-cell" dom.len field = PRes.found c)
    (hcp : (getN dom c).parent = some pc)
    (hlast : (getN dom pc).children.getLast? = some c)
    (hpara : node_parents dom "text:p" dom.len field = PRes.found q)
    (hqp : (getN dom q).parent = some qp)
    (hqpc : q ≠ pc)
    (hflt : field < dom.len) (hclt : c < dom.len) (hpclt : pc < dom.len)
    (hqlt : q < dom.len)
    (hb : ∀ k, k < dom.len → ∀ p, (getN dom k).parent = some p → p < dom.len) :
    promoteField dom field
      = some (removeChildD
          (appendChildD (create_text_node dom (fieldContent dom field)).1 pc
            (create_text_node dom (fieldContent dom field)).2)
          qp q) := by
  have hne : ¬("after::cell" = "") := by decide
  have hlkc : lookupStr FLOW_REFERENCES (pyStripS "after::cell")
      = some "table:table-cell" := by decide
  have hsupc : elemStr SUPPORTED_FIELD_REFERECES "table:table-cell" = true := by decide
  have haftc : strStartsWith "after::cell" "after::" = true := by decide
  have hg1 : ∀ k, k ≠ dom.len →
      getN (create_text_node dom (fieldContent dom field)).1 k = getN dom k := by
    intro k hk
    simp [create_text_node, getN, hk]
  have hcp1 : (getN (create_text_node dom (fieldContent dom field)).1 c).parent
      = some pc := by
    rw [hg1 c (Nat.ne_of_lt hclt)]; exact hcp
  have hlastb : lastChildIs (create_text_node dom (fieldContent dom field)).1 pc c
      = true := by
    unfold lastChildIs
    rw [hg1 pc (Nat.ne_of_lt hpclt)]
    simp [hlast]
  have hag : ∀ k, k < dom.len →
      (getN (appendChildD (create_text_node dom (fieldContent dom field)).1 pc
        (create_text_node dom (fieldContent dom field)).2) k).parent
        = (getN dom k).parent
      ∧ (getN (appendChildD (create_text_node dom (fieldContent dom field)).1 pc
        (create_text_node dom (fieldContent dom field)).2) k).nodeName
        = (getN dom k).nodeName := by
    intro k hk
    have hkj : k ≠ dom.len := Nat.ne_of_lt hk
    by_cases hkpc : k = pc
    · subst hkpc
      simp [appendChildD, updN, getN, create_text_node, hkj]
    · simp [appendChildD, updN, getN, create_text_node, hkj, hkpc]
  have hnp2 : node_parents
      (appendChildD (create_text_node dom (fieldContent dom field)).1 pc
        (create_text_node dom (fieldContent dom field)).2)
      "text:p"
      (appendChildD (create_text_node dom (fieldContent dom field)).1 pc
        (create_text_node dom (fieldContent dom field)).2).len field
      = PRes.found q := by
    have hmono : node_parents dom "text:p" (dom.len + 1) field = PRes.found q :=
      node_parents_found_mono dom "text:p" dom.len (dom.len + 1) field q hpara
        (by omega)
    have hcongr := node_parents_congr dom
      (appendChildD (create_text_node dom (fieldContent dom field)).1 pc
        (create_text_node dom (fieldContent dom field)).2)
      dom.len "text:p" hb hag (dom.len + 1) field hflt
    exact hcongr.trans hmono
  have hq2parent : (getN
      (appendChildD (create_text_node dom (fieldContent dom field)).1 pc
        (create_text_node dom (fieldContent dom field)).2) q).parent = some qp := by
    have := (hag q hqlt).1
    rw [this]
    exact hqp
  simp only [promoteField, hch, hjin, href, hne, hlkc, hsupc, hcell, hcp1,
    Option.getD, haftc, hlastb, hnp2, hq2parent, reduceCtorEq,
    Bool.false_eq_true, Bool.true_eq_false, if_false, ite_true, ite_false,
    Bool.true_or]

/-- C5: for a field with scope reference after-cell whose resolved cell
ancestor is the last child of its parent, the promotion appends the
replacement bare text node (carrying the raw expression) as the new last
child of that parent, and removes the nearest paragraph ancestor of the
original field rather than the cell: the cell stays a child of its
parent with its name and parent link intact, while the paragraph leaves
its own parent and becomes detached. -/
theorem after_cell_scoped_promotion (dom : Dom) (field c0 : Nat) (cr : List Nat)
    (c pc q qp : Nat)
    (hch : (getN dom field).children = c0 :: cr)
    (hjin : hasJinjaTagS (fieldContent dom field) = true)
    (href : effectiveReference dom field = "after::cell")
    (hcell : node_parents dom "table:table-cell" dom.len field = PRes.found c)
    (hcp : (getN dom c).parent = some pc)
    (hlast : (getN dom pc).children.getLast? = some c)
    (hpara : node_parents dom "text:p" dom.len field = PRes.found q)
    (hqp : (getN dom q).parent = some qp)
    (hqpc : q ≠ pc) (hqppc : qp ≠ pc) (hcpc : c ≠ pc) (hcq : c ≠ q)
    (hflt : field < dom.len) (hclt : c < dom.len) (hpclt : pc < dom.len)
    (hqlt : q < dom.len) (hqplt : qp < dom.len)
    (hb : ∀ k, k < dom.len → ∀ p, (getN dom k).parent = some p → p < dom.len)
    (hqcnt : countNat (getN dom qp).children q ≤ 1) :
    ∃ domF, promoteField dom field = some domF
      ∧ (getN domF pc).children = (getN dom pc).children ++ [dom.len]
      ∧ (getN domF dom.len).nodeName = "#text"
      ∧ (getN domF dom.len).tdata = fieldContent dom field
      ∧ containsNat (getN domF pc).children c = true
      ∧ (getN domF c).nodeName = (getN dom c).nodeName
      ∧ (getN domF c).parent = some pc
      ∧ containsNat (getN domF qp).children q = false
      ∧ (getN domF q).parent = none := by
  have heq := promoteField_after_cell_eq dom field c0 cr c pc q qp
    hch hjin href hcell hcp hlast hpara hqp hqpc hflt hclt hpclt hqlt hb
  have hpcq : pc ≠ q := Ne.symm hqpc
  have hpcqp : pc ≠ qp := Ne.symm hqppc
  have hpclen : pc ≠ dom.len := Nat.ne_of_lt hpclt
  have hlenpc : dom.len ≠ pc := Ne.symm hpclen
  have hqlen : q ≠ dom.len := Nat.ne_of_lt hqlt
  have hlenq : dom.len ≠ q := Ne.symm hqlen
  have hqplen : qp ≠ dom.len := Nat.ne_of_lt hqplt
  have hlenqp : dom.len ≠ qp := Ne.symm hqplen
  have hclen : c ≠ dom.len := Nat.ne_of_lt hclt
  have hlenc : dom.len ≠ c := Ne.symm hclen
  have hqc : q ≠ c := Ne.symm hcq
  have hpcc : pc ≠ c := Ne.symm hcpc
  refine ⟨_, heq, ?_, ?_, ?_, ?_, ?_, ?_, ?_, ?_⟩
  · simp [removeChildD, appendChildD, updN, getN, create_text_node,
      hpcq, hpcqp, hpclen, hlenpc]
  · simp [removeChildD, appendChildD, updN, getN, create_text_node,
      hlenq, hlenqp, hpclen, hlenpc]
  · simp [removeChildD, appendChildD, updN, getN, create_text_node,
      hlenq, hlenqp, hpclen, hlenpc]
  · have hchl : (getN (removeChildD
        (appendChildD (create_text_node dom (fieldContent dom field)).1 pc
          (create_text_node dom (fieldContent dom field)).2) qp q) pc).children
        = (getN dom pc).children ++ [dom.len] := by
      simp [removeChildD, appendChildD, updN, getN, create_text_node,
        hpcq, hpcqp, hpclen, hlenpc]
    rw [hchl]
    exact containsNat_append_left _ _ _ (containsNat_of_getLast? _ _ hlast)
  · by_cases hcqp : c = qp
    · subst hcqp
      simp [removeChildD, appendChildD, updN, getN, create_text_node,
        hcq, hcpc, hclen, hlenc, hpclen, hlenpc]
    · simp [removeChildD, appendChildD, updN, getN, create_text_node,
        hcq, hcqp, hcpc, hclen, hlenc, hpclen, hlenpc]
  · by_cases hcqp : c = qp
    · subst hcqp
      simp [removeChildD, appendChildD, updN, getN, create_text_node,
        hcq, hcpc, hclen, hlenc, hpclen, hlenpc]
      simpa [getN] using hcp
    · simp [removeChildD, appendChildD, updN, getN, create_text_node,
        hcq, hcqp, hcpc, hclen, hlenc, hpclen, hlenpc]
      simpa [getN] using hcp
  · have hchq : (getN (removeChildD
        (appendChildD (create_text_node dom (fieldContent dom field)).1 pc
          (create_text_node dom (fieldContent dom field)).2) qp q) qp).children
        = eraseFirstNat (getN dom qp).children q := by
      by_cases hqqp : qp = q
      · subst hqqp
        simp [removeChildD, appendChildD, updN, getN, create_text_node,
          Ne.symm hpcqp, hqplen, hlenqp, hpclen, hlenpc]
      · simp [removeChildD, appendChildD, updN, getN, create_text_node,
          Ne.symm hqqp, hqqp, Ne.symm hpcqp, hqplen, hlenqp, hpclen, hlenpc]
    rw [hchq]
    exact containsNat_eraseFirst_of_countNat_le_one _ _ hqcnt
  · simp [removeChildD, appendChildD, updN, getN, create_text_node]

/-- Witness for C5: in `domAfterCell` the after-cell field (id 4)
appends the bare text node (id 6) as the new last child of the row
(id 1), keeps the cell (id 2) in place, and removes the paragraph
(id 3) from the cell. -/
theorem after_cell_scoped_promotion_witness :
    ∃ domF, promoteField domAfterCell 4 = some domF
      ∧ (getN domF 1).children = (getN domAfterCell 1).children ++ [6]
      ∧ (getN domF 6).nodeName = "#text"
      ∧ (getN domF 6).tdata = fieldContent domAfterCell 4
      ∧ containsNat (getN domF 1).children 2 = true
      ∧ (getN domF 2).nodeName = (getN domAfterCell 2).nodeName
      ∧ (getN domF 2).parent = some 1
      ∧ containsNat (getN domF 2).children 3 = false
      ∧ (getN domF 3).parent = none :=
  after_cell_scoped_promotion domAfterCell 4 5 [] 2 1 3 2
    (by decide) (by decide) (by decide) (by decide) (by decide) (by decide)
    (by decide) (by decide) (by decide) (by decide) (by decide) (by decide)
    (by decide) (by decide) (by decide) (by decide) (by decide)
    (by decide) (by decide)
